import Mathlib

/-!
# Verification of the `quandl` batch dispatcher (`src/batch_query.rs`)

A shallow embedding of the rate-limited concurrent batch dispatcher:
the credential registry set up by `BatchQuery::run`, the round-robin
partitioner, the per-worker execution loop (rate-limit check, counter
increment, fetch, channel send), and the merge iterator's `try_next`
state machine.

Modelling conventions:

* A fetch operation (`ApiCall` implementor) is abstracted to the two
  capabilities the dispatcher consumes: its optional credential string
  (`Has::<ApiArguments>::get_ref(query).api_key`) and the value its
  synchronous `send()` would return.  The result type is an opaque type
  parameter `α` (in the Rust source it is `Result<T>`; the dispatcher
  never inspects it, it only forwards it through a channel).
* Machine integers (`usize`) are modelled by `Nat`; overflow is
  irrelevant here (counters only ever grow by `+ 1` from a caller
  offset).  Rust's `%` on `usize` agrees with `Nat.mod` for a nonzero
  divisor and panics on a zero divisor; the panic is modelled by
  `Option.none`.
* `std::sync::mpsc` channels are modelled by a FIFO buffer plus a
  `closed` flag.  `try_recv` returns `Ok(item)` whenever the buffer is
  non-empty (buffered items stay receivable after the sender hangs up),
  `Err(Disconnected)` when the buffer is empty and the sender is gone,
  and `Err(Empty)` when the buffer is empty and the sender is alive.
* Panics (`expect`, `panic!`, division by zero, out-of-bounds indexing)
  are modelled by `Option.none` / a `none` result.
-/

/-- A fetch operation, reduced to the two capabilities `BatchQuery::run`
consumes from it: the optional credential (`api_key`) and the value its
`send()` call produces. -/
structure Op (α : Type) where
  api_key : Option String
  send : α
deriving DecidableEq, Repr

/-- One `mpsc` result channel as the merge iterator sees it: the FIFO
buffer of not-yet-consumed items and whether the producing worker has
hung up. -/
structure Chan (α : Type) where
  buf : List α
  closed : Bool
deriving DecidableEq, Repr

/-- Outcome of one `try_next` call, mirroring its `Option<Option<T>>`
return type: `exhausted` is `None`, `notReady` is `Some(None)`, and
`item a` is `Some(Some(a))`. -/
inductive PollOut (α : Type) where
  | exhausted : PollOut α
  | notReady : PollOut α
  | item : α → PollOut α
deriving DecidableEq, Repr

/-- The merge iterator state: the rotating cursor `index` and the list
of per-worker result channels. -/
structure MIter (α : Type) where
  index : Nat
  channels : List (Chan α)
deriving DecidableEq, Repr

/-- The `loop` body of `Iterator::try_next` (batch_query.rs:183-208),
one fuel unit per loop iteration.  Each iteration: if `channels` is
empty return `None`; otherwise `try_recv` on `channels[index]` —
`Ok(item)` advances the cursor by `(index + 1) % channels.len()` and
returns `Some(Some(item))`; `Err(Disconnected)` truncates the channel
list to `index`, returns `None` if nothing remains and otherwise resets
the cursor to `0` and loops; `Err(Empty)` returns `Some(None)`.
`none` models a panic (out-of-bounds index) or fuel exhaustion; the
loop runs at most two iterations, so any fuel `≥ 2` (and `≥ 1` for an
empty channel list) is sufficient. -/
def tryNextLoop {α : Type} : Nat → Nat → List (Chan α) → Option (PollOut α × Nat × List (Chan α))
  | 0, _, _ => none
  | fuel + 1, index, channels =>
    if channels.isEmpty then
      some (.exhausted, index, channels)
    else
      match channels.get? index with
      | none => none
      | some ch =>
        match ch.buf with
        | a :: rest =>
          some (.item a, (index + 1) % channels.length, channels.set index ⟨rest, ch.closed⟩)
        | [] =>
          if ch.closed then
            if (channels.take index).isEmpty then
              some (.exhausted, index, channels.take index)
            else
              tryNextLoop fuel 0 (channels.take index)
          else
            some (.notReady, index, channels)

/-- `Iterator::try_next`: run the loop with enough fuel.  `none` is a
panic (never reached from a state satisfying the cursor invariant, see
the safety theorem below). -/
def tryNext {α : Type} (st : MIter α) : Option (PollOut α × MIter α) :=
  (tryNextLoop (st.channels.length + 1) st.index st.channels).map
    (fun r => (r.1, ⟨r.2.1, r.2.2⟩))

/-- The rate-limit tier walk inside the worker loop
(batch_query.rs:143-147, identically 123-127 in concurrent mode): for
each configured `(limit, duration)` pair in order, sleep for `duration`
when `calls != 0 && calls % limit == 0`.  Returns the list of cooldown
durations slept, in tier order; `none` models the `usize` remainder
panic when some tier's `limit` is `0` and `calls ≠ 0` (the `&&` in the
source short-circuits, so `calls = 0` never evaluates the remainder). -/
def limiterCheck (calls : Nat) : List (Nat × Nat) → Option (List Nat)
  | [] => some []
  | (limit, duration) :: rest =>
    if calls ≠ 0 then
      if limit = 0 then
        none
      else if calls % limit = 0 then
        (limiterCheck calls rest).map (fun s => duration :: s)
      else
        limiterCheck calls rest
    else
      limiterCheck calls rest

/-- One rate-limited call on a credential whose counter reads `calls`:
run the tier walk, then increment the counter by one
(batch_query.rs:143-149).  Returns the cooldowns slept and the counter
value stored back. -/
def callStep (limits : List (Nat × Nat)) (calls : Nat) : Option (List Nat × Nat) :=
  (limiterCheck calls limits).map (fun s => (s, calls + 1))

/-- `n` successive rate-limited calls on one credential whose counter
starts at `calls`: the per-call cooldown lists (in call order) and the
final counter value. -/
def callSeq (limits : List (Nat × Nat)) (calls : Nat) : Nat → Option (List (List Nat) × Nat)
  | 0 => some ([], calls)
  | n + 1 =>
    match limiterCheck calls limits with
    | none => none
    | some s => (callSeq limits (calls + 1) n).map (fun r => (s :: r.1, r.2))

/-- The cooldowns the spec says a call with pre-call counter `calls`
must incur: the tiers satisfying `calls ≠ 0 ∧ calls % threshold = 0`,
kept in configured order. -/
def appliedCooldowns (calls : Nat) (limits : List (Nat × Nat)) : List Nat :=
  (limits.filter (fun p => calls != 0 && calls % p.1 == 0)).map Prod.snd

/-- In-place update of a credential counter (the `*calls += 1` through
the per-key `Mutex`), on the association-list model of the registry. -/
def updateCount : List (String × Nat) → String → Nat → List (String × Nat)
  | [], _, _ => []
  | (k', c') :: rest, k, c =>
    if k' = k then (k', c) :: rest else (k', c') :: updateCount rest k c

/-- The registry-setup scan of `BatchQuery::run` (batch_query.rs:75-81):
for each query carrying an `api_key` not yet in the map, insert a
counter initialized to the configured `offset`.  The `HashMap` is
modelled by an association list (duplicate keys never arise thanks to
the contains-check). -/
def setupKeys {α : Type} (offset : Nat) : List (Op α) → List (String × Nat) → List (String × Nat)
  | [], m => m
  | q :: rest, m =>
    match q.api_key with
    | some k =>
      if (m.lookup k).isSome then
        setupKeys offset rest m
      else
        setupKeys offset rest ((k, offset) :: m)
    | none => setupKeys offset rest m

/-- The worker thread body (batch_query.rs:111-157) on one shard,
threading the credential-counter registry.  For each operation: if it
carries an `api_key`, look the counter up (`expect "Key not found"` —
`none` on a missing key), run the tier walk (`none` on a zero-threshold
panic), store back `counter + 1`, and send the fetch result on the
channel; `alive = false` models a dropped consumer, for which the
`tx.send` fails and the worker panics (`none`).  An operation whose
`api_key` is `None` matches no branch of the `if let` and is skipped
outright.  The two `concurrent_calls` branches differ only in how long
the per-key lock is held, which this sequential model cannot observe;
both perform the same check, increment and send.  Returns the values
sent (in order), the cooldowns slept (in order) and the final
registry. -/
def workerRun {α : Type} (alive : Bool) (limits : List (Nat × Nat)) :
    List (Op α) → List (String × Nat) → Option (List α × List Nat × List (String × Nat))
  | [], m => some ([], [], m)
  | op :: rest, m =>
    match op.api_key with
    | none => workerRun alive limits rest m
    | some k =>
      match m.lookup k with
      | none => none
      | some c =>
        match limiterCheck c limits with
        | none => none
        | some sleeps =>
          if alive then
            (workerRun alive limits rest (updateCount m k (c + 1))).map
              (fun r => (op.send :: r.1, sleeps ++ r.2.1, r.2.2))
          else
            none

/-- The values a worker pushes onto its channel over a whole shard:
one `send()` result per operation that carries a credential, in shard
order (keyless operations are skipped by the worker loop). -/
def workerOutputs {α : Type} (shard : List (Op α)) : List α :=
  shard.filterMap (fun op => if op.api_key.isSome then some op.send else none)

/-- The round-robin partitioning loop of `BatchQuery::run`
(batch_query.rs:89-91): push the operation at original position `i`
onto `jobs[i % threads]`.  `acc` is the current `jobs` vector and `i`
the enumeration index. -/
def jobsGo {α : Type} (threads : Nat) : List (List (Op α)) → Nat → List (Op α) → List (List (Op α))
  | acc, _, [] => acc
  | acc, i, q :: rest =>
    jobsGo threads (acc.set (i % threads) (acc.getD (i % threads) [] ++ [q])) (i + 1) rest

/-- The `jobs` vector built by `BatchQuery::run` (batch_query.rs:83-91):
`threads` initially empty shards, filled round-robin by original
index. -/
def jobsOf {α : Type} (threads : Nat) (queries : List (Op α)) : List (List (Op α)) :=
  jobsGo threads (List.replicate threads []) 0 queries

/-- Positions-of-a-residue-class view of a shard: the operations at
positions `i, i + T, i + 2T, …` (those whose absolute index, starting
at `i0`, is `≡ j (mod threads)`).  This is the spec's description of
shard `j`; the partitioner theorem equates it with `jobsOf`. -/
def idxFilter {α : Type} (threads j : Nat) : Nat → List (Op α) → List (Op α)
  | _, [] => []
  | i, q :: rest =>
    if i % threads = j then q :: idxFilter threads j (i + 1) rest
    else idxFilter threads j (i + 1) rest

/-- The spawn loop of `BatchQuery::run` (batch_query.rs:102-159): one
worker and one result channel per non-empty shard, in shard order.
This model records, per spawned worker, the full buffer its channel
holds once the worker has finished (the quiescent channel contents). -/
def runChannelBufs {α : Type} (threads : Nat) (queries : List (Op α)) : List (List α) :=
  ((jobsOf threads queries).filter (fun s => !s.isEmpty)).map workerOutputs

/-- The merge iterator as `BatchQuery::run` returns it, observed after
every worker has finished: cursor `0`, one closed channel per spawned
worker holding that worker's outputs. -/
def quiescentIter {α : Type} (threads : Nat) (queries : List (Op α)) : MIter α :=
  ⟨0, (runChannelBufs threads queries).map (fun b => ⟨b, true⟩)⟩

/-- Repeatedly poll the iterator (the blocking `next` of the
`std::iter::Iterator` impl, batch_query.rs:214-222, on a quiescent
state where `Some(None)` can no longer occur), collecting items until
exhaustion.  Fuel-indexed; used on small concrete states. -/
def drainLoop {α : Type} : Nat → MIter α → List α
  | 0, _ => []
  | fuel + 1, st =>
    match tryNext st with
    | some (.item a, st') => a :: drainLoop fuel st'
    | _ => []

/-- Modelled from the spec (§8, §C5 refinement baseline): "the sequence
obtained by executing the submitted operations sequentially in
submission order" — one result per submitted operation, in order. -/
def specSequentialRun {α : Type} (queries : List (Op α)) : List α :=
  queries.map (fun op => op.send)

/-- The `BatchQuery` builder struct (batch_query.rs:14-24) with the
queries abstracted to `Op α`.  `new()` initializes `threads` to
`num_cpus::get()`, an environmental quantity passed in here as
`cpus`. -/
structure BatchQuery (α : Type) where
  offset : Nat
  limits : List (Nat × Nat)
  queries : List (Op α)
  threads : Nat
  concurrent_calls : Bool
deriving DecidableEq, Repr

/-- `BatchQuery::new` (batch_query.rs:30-39). -/
def BatchQuery.new (α : Type) (cpus : Nat) : BatchQuery α :=
  ⟨0, [], [], cpus, false⟩

/-- A concrete fetch-result type for witnesses: the dispatcher forwards
`Result<T>` values opaquely, so `err` travels the same path as `ok`. -/
inductive FetchRes where
  | ok : Nat → FetchRes
  | err : Nat → FetchRes
deriving DecidableEq, Repr

example : limiterCheck 300 [(300, 10), (2000, 600)] = some [10] := by decide
example : limiterCheck 0 [(0, 10)] = some [] := by decide
example : limiterCheck 6 [(2, 5), (3, 7)] = some [5, 7] := by decide
example : callSeq [(3, 7)] 0 4 = some ([[], [], [], [7]], 4) := by decide
example : jobsOf 2 [(⟨some "a", 1⟩ : Op Nat), ⟨some "a", 2⟩, ⟨none, 3⟩] =
    [[⟨some "a", 1⟩, ⟨none, 3⟩], [⟨some "a", 2⟩]] := by decide
example : runChannelBufs 3 [(⟨some "a", 1⟩ : Op Nat), ⟨some "b", 2⟩] = [[1], [2]] := by decide
example : workerRun true [(2, 5)] [(⟨none, 42⟩ : Op Nat)] [("k", 0)] =
    some ([], [], [("k", 0)]) := by decide
example : drainLoop 9 (quiescentIter 2 [(⟨some "a", 1⟩ : Op Nat), ⟨some "a", 2⟩, ⟨some "b", 3⟩]) =
    [1, 2, 3] := by decide

example : tryNext (⟨0, [⟨[3], true⟩]⟩ : MIter Nat) = some (.item 3, ⟨0, [⟨[], true⟩]⟩) := by decide
example : tryNext (⟨0, [⟨[], false⟩]⟩ : MIter Nat) = some (.notReady, ⟨0, [⟨[], false⟩]⟩) := by decide
example : tryNext (⟨0, [⟨[], true⟩, ⟨[7], true⟩]⟩ : MIter Nat) = some (.exhausted, ⟨0, []⟩) := by
  decide
example : tryNext (⟨1, [⟨[7], true⟩, ⟨[], true⟩]⟩ : MIter Nat) = some (.item 7, ⟨0, [⟨[], true⟩]⟩) := by
  decide

/-! ## Rate limiter (C3) -/

/-- With every tier threshold nonzero (so the `usize` remainder never
panics), the tier walk sleeps for exactly the tiers satisfied by the
pre-call counter value, in configured order. -/
theorem limiterCheck_eq_applied (calls : Nat) (limits : List (Nat × Nat))
    (hpos : ∀ p ∈ limits, p.1 ≠ 0) :
    limiterCheck calls limits = some (appliedCooldowns calls limits) := by
  induction limits with
  | nil => simp [limiterCheck, appliedCooldowns]
  | cons p rest ih =>
    obtain ⟨limit, duration⟩ := p
    have hl : limit ≠ 0 := hpos (limit, duration) (by simp)
    have ih' := ih (fun q hq => hpos q (List.mem_cons_of_mem _ hq))
    by_cases hc : calls = 0
    · subst hc
      simp [limiterCheck, appliedCooldowns, List.filter_cons] at ih' ⊢
      simpa [appliedCooldowns] using ih'
    · by_cases hm : calls % limit = 0
      · simp [limiterCheck, hc, hl, hm, ih', appliedCooldowns, List.filter_cons]
      · simp [limiterCheck, hc, hl, hm, ih', appliedCooldowns, List.filter_cons]

/-- C3: for every credentialed call on a tier list with nonzero
thresholds, the worker sleeps a tier's cooldown iff the counter value
`c` read before the call is counted satisfies `c ≠ 0 ∧ c % threshold =
0` (the tiers being walked in configured order, every satisfied tier's
cooldown applied), and only after the tier walk is the counter
incremented by one — so the `N`-th call (1-indexed) on a credential is
checked against counter value `offset + N - 1` and leaves the counter
at `offset + N`. -/
theorem c3_rate_limiter_tier_walk_and_increment (limits : List (Nat × Nat))
    (hpos : ∀ p ∈ limits, p.1 ≠ 0) (offset n : Nat) :
    callSeq limits offset n =
      some ((List.range n).map (fun i => appliedCooldowns (offset + i) limits), offset + n) := by
  induction n generalizing offset with
  | zero => simp [callSeq]
  | succ n ih =>
    have h1 := limiterCheck_eq_applied offset limits hpos
    have h2 := ih (offset + 1)
    simp only [callSeq, h1, h2, Option.map_some']
    refine congrArg some (Prod.ext ?_ (by omega))
    simp only [List.range_succ_eq_map, List.map_cons, List.map_map, Nat.add_zero]
    refine congrArg (appliedCooldowns offset limits :: ·) ?_
    refine List.map_congr_left (fun a _ => ?_)
    simp only [Function.comp_apply]
    rw [show offset + 1 + a = offset + (a + 1) by omega]

/-- Witness for C3 at the spec's own example (§8): tier list `[(3, 7)]`,
offset `0`, four calls — a cooldown fires only before the 4th call,
when the pre-call counter is `3`. -/
theorem c3_witness :
    (∀ p ∈ [(3, 7)], p.1 ≠ 0) ∧
    callSeq [(3, 7)] 0 4 = some ([[], [], [], [7]], 4) :=
  ⟨by decide, (c3_rate_limiter_tier_walk_and_increment [(3, 7)] (by decide) 0 4).trans (by decide)⟩

/-! ## The keyless-operation slip (C1, C2, C5)

The claim set asserts (C1) that an operation whose `api_key` is `None`
is still executed and its result pushed, (C2) that a batch of `N`
operations yields exactly `N` results, and (C5) that a single-worker
run equals the sequential run.  In the source the entire worker step —
rate-limit walk, fetch, and channel send — sits inside
`if let Some(ref key) = ...api_key { ... }` (batch_query.rs:113-155)
with no else branch, so a keyless operation is skipped outright.  The
repository's own test (`tests/lib.rs`, committed with
`API_KEY = None`) submits four keyless queries and asserts four
results, which this code cannot deliver.  The theorems below evaluate
the embedded code at the failing inputs. -/

/-- C1: refuted by evaluation — at a batch holding one keyless
operation, the worker executes no fetch and pushes nothing (while, as
the claim also says, sleeping no cooldown and leaving the credential
registry untouched).  The claim's "is still executed ... and its
result is pushed" demands the output list `[42]`; the code produces
`[]`. -/
theorem c1_keyless_operation_skipped_eval :
    workerRun true [(2, 5)] [(⟨none, 42⟩ : Op Nat)] [("k", 3)] = some ([], [], [("k", 3)]) ∧
    workerOutputs [(⟨none, 42⟩ : Op Nat)] = [] := by decide

/-- C2: refuted by evaluation — a batch of `N = 2` operations, one of
them keyless, run on one worker, drains to a single result: the
keyless operation never yields a result, so the merge iterator
produces fewer than `N` results although no worker aborted.  Worse,
with two workers and the keyless operation alone in shard `0`, that
worker sends nothing and closes; the iterator finds channel `0`
disconnected at cursor `0`, truncates to the empty list and reports
exhaustion — even the credentialed result in shard `1` is dropped. -/
theorem c2_keyless_batch_drops_a_result_eval :
    drainLoop 5 (quiescentIter 1 [(⟨some "a", 1⟩ : Op Nat), ⟨none, 2⟩]) = [1] ∧
    [(⟨some "a", 1⟩ : Op Nat), ⟨none, 2⟩].length = 2 ∧
    drainLoop 5 (quiescentIter 2 [(⟨none, 1⟩ : Op Nat), ⟨some "a", 2⟩]) = [] := by decide

/-- C5: refuted by evaluation — with worker count 1, a batch holding a
keyless operation drains to `[2]`, while the sequential execution of
the submitted operations in submission order yields `[1, 2]`; the
single-shard run does not refine the naive sequential run. -/
theorem c5_single_worker_not_sequential_eval :
    drainLoop 5 (quiescentIter 1 [(⟨none, 1⟩ : Op Nat), ⟨some "a", 2⟩]) = [2] ∧
    specSequentialRun [(⟨none, 1⟩ : Op Nat), ⟨some "a", 2⟩] = [1, 2] ∧
    ([2] : List Nat) ≠ [1, 2] := by decide

/-! ## Merge iterator (C4, C7, C10) -/

/-- At cursor `0` one loop iteration always returns: a disconnected
channel at position `0` truncates to the empty list and exits, so the
fuel beyond the first unit is irrelevant. -/
theorem tryNextLoop_succ_zero {α : Type} (f : Nat) (l : List (Chan α)) :
    tryNextLoop (f + 1) 0 l = tryNextLoop 1 0 l := by
  cases l with
  | nil => simp [tryNextLoop]
  | cons ch rest =>
    cases hb : ch.buf with
    | cons a t => simp [tryNextLoop, hb]
    | nil => cases hc : ch.closed <;> simp [tryNextLoop, hb, hc]

/-- One unfolding of the `try_next` loop at an in-bounds cursor,
phrased through the channel found there. -/
theorem tryNextLoop_step {α : Type} (fuel idx : Nat) (chans : List (Chan α)) (ch : Chan α)
    (hget : chans.get? idx = some ch) :
    tryNextLoop (fuel + 1) idx chans =
      match ch.buf with
      | a :: rest =>
        some (.item a, (idx + 1) % chans.length, chans.set idx ⟨rest, ch.closed⟩)
      | [] =>
        if ch.closed then
          if (chans.take idx).isEmpty then some (.exhausted, idx, chans.take idx)
          else tryNextLoop fuel 0 (chans.take idx)
        else some (.notReady, idx, chans) := by
  cases chans with
  | nil => simp at hget
  | cons c0 rest =>
    simp only [tryNextLoop, List.isEmpty_cons, Bool.false_eq_true, if_false, hget]

/-- C4: when the channel at the cursor is disconnected — empty buffer,
producer gone — `try_next` truncates the channel list to the cursor
index, discarding that channel and every later one; if nothing remains
(cursor `0`) it returns the exhausted signal, and otherwise it resets
the cursor to `0` and polls on. -/
theorem c4_disconnected_truncates_and_resets {α : Type} (idx : Nat)
    (chans : List (Chan α)) (ch : Chan α) (hget : chans.get? idx = some ch)
    (hbuf : ch.buf = []) (hcl : ch.closed = true) :
    (idx = 0 → tryNext ⟨idx, chans⟩ = some (.exhausted, ⟨0, []⟩)) ∧
    (0 < idx → chans.take idx ≠ [] ∧ tryNext ⟨idx, chans⟩ = tryNext ⟨0, chans.take idx⟩) := by
  have hlt : idx < chans.length := by
    by_contra h
    rw [List.get?_eq_none.mpr (Nat.le_of_not_lt h)] at hget
    exact Option.noConfusion hget
  constructor
  · intro h0
    subst h0
    simp only [tryNext]
    rw [tryNextLoop_step chans.length 0 chans ch hget]
    simp [hbuf, hcl]
  · intro hpos
    have hlen : (chans.take idx).length = idx := by
      rw [List.length_take]; omega
    have htake : chans.take idx ≠ [] := by
      intro h
      rw [h] at hlen
      simp at hlen
      omega
    have hie : (chans.take idx).isEmpty = false := by
      cases h : chans.take idx with
      | nil => exact absurd h htake
      | cons a l => rfl
    refine ⟨htake, ?_⟩
    simp only [tryNext]
    rw [tryNextLoop_step chans.length idx chans ch hget]
    simp only [hbuf, hcl, if_true, hie, Bool.false_eq_true, if_false, hlen]
    obtain ⟨f, hf⟩ : ∃ f, chans.length = f + 1 := ⟨chans.length - 1, by omega⟩
    rw [hf, tryNextLoop_succ_zero, tryNextLoop_succ_zero idx (List.take idx chans)]

/-- Witness for C4: two channels, the one at cursor `1` disconnected;
`try_next` behaves like a fresh poll on the one-channel prefix. -/
theorem c4_witness :
    ([⟨[5], true⟩, ⟨[], true⟩] : List (Chan Nat)).take 1 ≠ [] ∧
    tryNext (⟨1, [⟨[5], true⟩, ⟨[], true⟩]⟩ : MIter Nat) =
      tryNext ⟨0, ([⟨[5], true⟩, ⟨[], true⟩] : List (Chan Nat)).take 1⟩ :=
  (c4_disconnected_truncates_and_resets 1 [⟨[5], true⟩, ⟨[], true⟩] ⟨[], true⟩
    (by decide) rfl rfl).2 (by decide)

/-- C7: a channel that is open (producer alive) but momentarily empty
makes `try_next` report not-ready and leave both the cursor and the
channel list unchanged; consequently a freshly constructed iterator —
every channel open and empty — reports not-ready, never exhausted. -/
theorem c7_open_empty_channel_not_ready {α : Type} (idx : Nat)
    (chans : List (Chan α)) (ch : Chan α) (hget : chans.get? idx = some ch)
    (hbuf : ch.buf = []) (hcl : ch.closed = false) :
    tryNext ⟨idx, chans⟩ = some (.notReady, ⟨idx, chans⟩) ∧
    (∀ chans' : List (Chan α), chans' ≠ [] →
      (∀ c ∈ chans', c.buf = [] ∧ c.closed = false) →
      tryNext ⟨0, chans'⟩ = some (.notReady, ⟨0, chans'⟩)) := by
  constructor
  · simp only [tryNext]
    rw [tryNextLoop_step chans.length idx chans ch hget]
    simp [hbuf, hcl]
  · intro chans' hne hall
    cases chans' with
    | nil => exact absurd rfl hne
    | cons c0 rest =>
      have h0 := hall c0 (List.mem_cons_self c0 rest)
      simp only [tryNext]
      rw [tryNextLoop_step (c0 :: rest).length 0 (c0 :: rest) c0 rfl]
      simp [h0.1, h0.2]

/-- Witness for C7: a single open empty channel at cursor `0` polls to
not-ready with the state untouched. -/
theorem c7_witness :
    tryNext (⟨0, [⟨[], false⟩]⟩ : MIter Nat) = some (.notReady, ⟨0, [⟨[], false⟩]⟩) :=
  (c7_open_empty_channel_not_ready 0 [⟨[], false⟩] ⟨[], false⟩ (by decide) rfl rfl).1

/-- C10: the cursor invariant — `index < channels.length` whenever the
channel list is non-empty — is preserved by every `try_next` call, and
under it the channel access at the cursor is in bounds: `try_next`
returns a value (never the `none` that models an indexing panic). -/
theorem c10_cursor_invariant_preserved {α : Type} (st : MIter α)
    (hinv : st.channels ≠ [] → st.index < st.channels.length) :
    ∃ r st', tryNext st = some (r, st') ∧
      (st'.channels ≠ [] → st'.index < st'.channels.length) := by
  obtain ⟨idx, chans⟩ := st
  by_cases hne : chans = []
  · subst hne
    exact ⟨.exhausted, ⟨idx, []⟩, by simp [tryNext, tryNextLoop], by simp⟩
  · have hlt : idx < chans.length := hinv hne
    have hlenpos : 0 < chans.length := by omega
    have hget : chans.get? idx = some (chans.get ⟨idx, hlt⟩) := List.get?_eq_get hlt
    simp only [tryNext]
    rw [tryNextLoop_step chans.length idx chans (chans.get ⟨idx, hlt⟩) hget]
    cases hb : (chans.get ⟨idx, hlt⟩).buf with
    | cons a t =>
      refine ⟨.item a, ⟨(idx + 1) % chans.length, chans.set idx ⟨t, (chans.get ⟨idx, hlt⟩).closed⟩⟩,
        by simp, ?_⟩
      intro _
      simp only [List.length_set]
      exact Nat.mod_lt _ hlenpos
    | nil =>
      cases hc : (chans.get ⟨idx, hlt⟩).closed with
      | false => exact ⟨.notReady, ⟨idx, chans⟩, by simp, fun _ => hlt⟩
      | true =>
        by_cases ht : (chans.take idx).isEmpty = true
        · refine ⟨.exhausted, ⟨idx, chans.take idx⟩, by simp [ht], ?_⟩
          intro hne'
          exact absurd (List.isEmpty_iff.mp ht) hne'
        · have ht' : (chans.take idx).isEmpty = false := by
            revert ht
            cases (chans.take idx).isEmpty <;> simp
          obtain ⟨c0, rest', htake⟩ : ∃ c0 rest', chans.take idx = c0 :: rest' := by
            cases h : chans.take idx with
            | nil => rw [h] at ht'; simp at ht'
            | cons a l => exact ⟨a, l, rfl⟩
          simp only [ht', Bool.false_eq_true, if_false, if_true]
          obtain ⟨f, hf⟩ : ∃ f, chans.length = f + 1 := ⟨chans.length - 1, by omega⟩
          rw [hf, tryNextLoop_succ_zero, htake]
          rw [tryNextLoop_step 0 0 (c0 :: rest') c0 rfl]
          cases hb0 : c0.buf with
          | cons a t =>
            refine ⟨.item a, ⟨1 % (c0 :: rest').length, (c0 :: rest').set 0 ⟨t, c0.closed⟩⟩,
              by simp, ?_⟩
            intro _
            simp only [List.length_set]
            exact Nat.mod_lt _ (by simp)
          | nil =>
            cases hc0 : c0.closed with
            | false =>
              exact ⟨.notReady, ⟨0, c0 :: rest'⟩, by simp, fun _ => by simp⟩
            | true =>
              exact ⟨.exhausted, ⟨0, []⟩, by simp, fun h => absurd rfl h⟩

/-- Witness for C10 at a two-channel state with cursor `1`. -/
theorem c10_witness :
    ((⟨1, [⟨[9], true⟩, ⟨[], false⟩]⟩ : MIter Nat).channels ≠ [] →
      (⟨1, [⟨[9], true⟩, ⟨[], false⟩]⟩ : MIter Nat).index <
        (⟨1, [⟨[9], true⟩, ⟨[], false⟩]⟩ : MIter Nat).channels.length) ∧
    ∃ r st', tryNext (⟨1, [⟨[9], true⟩, ⟨[], false⟩]⟩ : MIter Nat) = some (r, st') ∧
      (st'.channels ≠ [] → st'.index < st'.channels.length) :=
  ⟨by decide, c10_cursor_invariant_preserved ⟨1, [⟨[9], true⟩, ⟨[], false⟩]⟩ (by decide)⟩

/-! ## Round-robin partitioner (C6) -/

/-- `jobsGo` never changes the number of shards. -/
theorem jobsGo_length {α : Type} (threads : Nat) (qs : List (Op α)) :
    ∀ (acc : List (List (Op α))) (i : Nat), (jobsGo threads acc i qs).length = acc.length := by
  induction qs with
  | nil => intro acc i; rfl
  | cons q rest ih => intro acc i; rw [jobsGo, ih, List.length_set]

/-- `getD` after setting the same position. -/
theorem getD_set_self {β : Type} (l : List β) (d : β) (m : Nat) (x : β) (h : m < l.length) :
    (l.set m x).getD m d = x := by
  induction l generalizing m with
  | nil => simp at h
  | cons a t ih =>
    cases m with
    | zero => rfl
    | succ m' => simpa [List.getD_cons_succ] using ih m' (by simpa using h)

/-- `getD` after setting a different position. -/
theorem getD_set_ne {β : Type} (l : List β) (d : β) (m j : Nat) (x : β) (h : m ≠ j) :
    (l.set m x).getD j d = l.getD j d := by
  induction l generalizing m j with
  | nil => rfl
  | cons a t ih =>
    cases m with
    | zero =>
      cases j with
      | zero => exact absurd rfl h
      | succ j' => simp [List.getD_cons_succ]
    | succ m' =>
      cases j with
      | zero => simp [List.getD_cons_zero]
      | succ j' => simpa [List.getD_cons_succ] using ih m' j' (fun hh => h (by rw [hh]))

/-- `getD` on a replicated list of empty shards. -/
theorem getD_replicate_nil {β : Type} (n j : Nat) :
    (List.replicate n ([] : List β)).getD j [] = [] := by
  induction n generalizing j with
  | zero => rfl
  | succ n' ih =>
    cases j with
    | zero => rfl
    | succ j' => rw [List.replicate, List.getD_cons_succ, ih j']

/-- Filling the partition loop from shard vector `acc` and enumeration
index `i` appends, to each shard `j`, exactly the operations whose
absolute position is `≡ j (mod threads)`. -/
theorem jobsGo_getD {α : Type} (threads : Nat) (hT : 0 < threads) (qs : List (Op α)) :
    ∀ (acc : List (List (Op α))) (i j : Nat), acc.length = threads → j < threads →
    (jobsGo threads acc i qs).getD j [] = acc.getD j [] ++ idxFilter threads j i qs := by
  induction qs with
  | nil => intro acc i j hlen hj; simp [jobsGo, idxFilter]
  | cons q rest ih =>
    intro acc i j hlen hj
    have hm : i % threads < acc.length := by rw [hlen]; exact Nat.mod_lt _ hT
    rw [jobsGo, ih _ (i + 1) j (by rw [List.length_set]; exact hlen) hj]
    by_cases hij : i % threads = j
    · rw [hij] at hm ⊢
      rw [getD_set_self _ _ _ _ hm]
      rw [show idxFilter threads j i (q :: rest) = q :: idxFilter threads j (i + 1) rest from by
        simp [idxFilter, hij]]
      simp
    · rw [getD_set_ne _ _ _ _ _ hij]
      rw [show idxFilter threads j i (q :: rest) = idxFilter threads j (i + 1) rest from by
        simp [idxFilter, hij]]

/-- Appending one operation to an in-range shard grows the total
operation count by one. -/
theorem sumLens_set {β : Type} (l : List (List β)) (m : Nat) (x : β) (h : m < l.length) :
    ((l.set m (l.getD m [] ++ [x])).map List.length).sum = (l.map List.length).sum + 1 := by
  induction l generalizing m with
  | nil => simp at h
  | cons a t ih =>
    cases m with
    | zero => simp [List.getD_cons_zero]; omega
    | succ m' =>
      simp only [List.set, List.getD_cons_succ, List.map_cons, List.sum_cons]
      rw [ih m' (by simpa using h)]
      omega

/-- The partition loop conserves the total operation count. -/
theorem jobsGo_sum {α : Type} (threads : Nat) (hT : 0 < threads) (qs : List (Op α)) :
    ∀ (acc : List (List (Op α))) (i : Nat), acc.length = threads →
    ((jobsGo threads acc i qs).map List.length).sum = (acc.map List.length).sum + qs.length := by
  induction qs with
  | nil => intro acc i h; simp [jobsGo]
  | cons q rest ih =>
    intro acc i h
    rw [jobsGo, ih _ (i + 1) (by rw [List.length_set]; exact h)]
    rw [sumLens_set acc (i % threads) q (by rw [h]; exact Nat.mod_lt _ hT)]
    simp only [List.length_cons]
    omega

/-- C6: the partitioner builds exactly `threads` shards; shard `j`
holds precisely the operations at original positions `j, j + T,
j + 2T, …` in order; summing shard sizes accounts for every submitted
operation exactly once; and only non-empty shards spawn a worker and
contribute a result channel. -/
theorem c6_round_robin_partitioner {α : Type} (threads : Nat) (queries : List (Op α))
    (hT : 0 < threads) :
    (jobsOf threads queries).length = threads ∧
    (∀ j, j < threads → (jobsOf threads queries).getD j [] = idxFilter threads j 0 queries) ∧
    ((jobsOf threads queries).map List.length).sum = queries.length ∧
    runChannelBufs threads queries =
      ((jobsOf threads queries).filter (fun s => !s.isEmpty)).map workerOutputs ∧
    (∀ s ∈ (jobsOf threads queries).filter (fun s => !s.isEmpty), s ≠ []) := by
  refine ⟨?_, ?_, ?_, rfl, ?_⟩
  · rw [jobsOf, jobsGo_length]
    exact List.length_replicate threads []
  · intro j hj
    rw [jobsOf, jobsGo_getD threads hT queries _ 0 j (List.length_replicate threads []) hj]
    rw [getD_replicate_nil]
    rfl
  · rw [jobsOf, jobsGo_sum threads hT queries _ 0 (List.length_replicate threads [])]
    simp
  · intro s hs
    have h := (List.mem_filter.mp hs).2
    intro hnil
    rw [hnil] at h
    simp at h

/-- Witness for C6 at three operations over two workers: shard `0`
holds the operations at positions `0` and `2`. -/
theorem c6_witness :
    0 < 2 ∧
    (jobsOf 2 [(⟨some "a", 1⟩ : Op Nat), ⟨some "b", 2⟩, ⟨none, 3⟩]).getD 0 [] =
      idxFilter 2 0 0 [(⟨some "a", 1⟩ : Op Nat), ⟨some "b", 2⟩, ⟨none, 3⟩] :=
  ⟨by decide,
    (c6_round_robin_partitioner 2 [⟨some "a", 1⟩, ⟨some "b", 2⟩, ⟨none, 3⟩] (by decide)).2.1
      0 (by decide)⟩

/-! ## Credential registry (C8) and worker error handling (C9) -/

/-- A key is in the registry after the setup scan iff it was there
before or some scanned query carries it. -/
theorem setupKeys_lookup_isSome {α : Type} (offset : Nat) (qs : List (Op α)) :
    ∀ (m : List (String × Nat)) (k : String),
    ((setupKeys offset qs m).lookup k).isSome = true ↔
      ((m.lookup k).isSome = true ∨ ∃ q ∈ qs, q.api_key = some k) := by
  induction qs with
  | nil => intro m k; simp [setupKeys]
  | cons q rest ih =>
    intro m k
    cases hq : q.api_key with
    | none =>
      simp only [setupKeys, hq]
      rw [ih m k]
      simp [hq]
    | some k' =>
      simp only [setupKeys, hq]
      by_cases hl : ((m.lookup k').isSome) = true
      · rw [if_pos hl, ih m k]
        by_cases hkk : k' = k
        · subst hkk
          simp [hl, hq]
        · simp only [hq, List.mem_cons, exists_eq_or_imp, Option.some.injEq]
          constructor
          · rintro (h | h)
            · exact Or.inl h
            · exact Or.inr (Or.inr h)
          · rintro (h | h | h)
            · exact Or.inl h
            · exact absurd h hkk
            · exact Or.inr h
      · rw [if_neg hl, ih _ k]
        by_cases hkk : k = k'
        · subst hkk
          simp [List.lookup, hq]
        · have hbe : (k == k') = false := beq_eq_false_iff_ne.mpr hkk
          have hck : (((k', offset) :: m).lookup k) = m.lookup k := by
            simp [List.lookup, hbe]
          rw [hck]
          simp only [hq, List.mem_cons, exists_eq_or_imp, Option.some.injEq]
          constructor
          · rintro (h | h)
            · exact Or.inl h
            · exact Or.inr (Or.inr h)
          · rintro (h | h | h)
            · exact Or.inl h
            · exact absurd h (fun hh => hkk hh.symm)
            · exact Or.inr h

/-- Every counter the setup scan writes is the configured offset. -/
theorem setupKeys_lookup_offset {α : Type} (offset : Nat) (qs : List (Op α)) :
    ∀ m : List (String × Nat), (∀ k v, m.lookup k = some v → v = offset) →
    ∀ k v, (setupKeys offset qs m).lookup k = some v → v = offset := by
  induction qs with
  | nil => intro m hm; exact hm
  | cons q rest ih =>
    intro m hm
    cases hq : q.api_key with
    | none =>
      simp only [setupKeys, hq]
      exact ih m hm
    | some k' =>
      simp only [setupKeys, hq]
      by_cases hl : ((m.lookup k').isSome) = true
      · rw [if_pos hl]
        exact ih m hm
      · rw [if_neg hl]
        refine ih _ ?_
        intro k v hkv
        by_cases hkk : k = k'
        · subst hkk
          simp [List.lookup] at hkv
          exact hkv.symm
        · have hbe : (k == k') = false := beq_eq_false_iff_ne.mpr hkk
          simp [List.lookup, hbe] at hkv
          exact hm k v hkv

/-- The run-time counter increment (`*calls += 1`) neither adds nor
removes registry entries. -/
theorem updateCount_lookup_isSome (m : List (String × Nat)) (k : String) (c : Nat)
    (k' : String) : (((updateCount m k c).lookup k').isSome) = ((m.lookup k').isSome) := by
  induction m with
  | nil => rfl
  | cons p rest ih =>
    obtain ⟨k0, c0⟩ := p
    simp only [updateCount]
    by_cases h : k0 = k
    · rw [if_pos h]
      by_cases h2 : k' = k0
      · subst h2
        simp [List.lookup]
      · have hbe : (k' == k0) = false := beq_eq_false_iff_ne.mpr h2
        simp [List.lookup, hbe]
    · rw [if_neg h]
      by_cases h2 : k' = k0
      · subst h2
        simp [List.lookup]
      · have hbe : (k' == k0) = false := beq_eq_false_iff_ne.mpr h2
        simp [List.lookup, hbe, ih]

/-- C8: after the registry-setup scan, the credential-counter map holds
an entry for a key iff some operation in the batch carries that key as
its credential; every entry starts at the configured offset (`new()`
defaults the offset to 0); and the workers' counter increments never
add or drop an entry, so the iff persists for the whole run. -/
theorem c8_registry_domain_and_initial_offsets {α : Type} (offset : Nat)
    (queries : List (Op α)) :
    (∀ k : String, ((setupKeys offset queries []).lookup k).isSome = true ↔
      ∃ q ∈ queries, q.api_key = some k) ∧
    (∀ (k : String) (v : Nat), (setupKeys offset queries []).lookup k = some v → v = offset) ∧
    (∀ (m : List (String × Nat)) (k k' : String) (c : Nat),
      (((updateCount m k c).lookup k').isSome) = ((m.lookup k').isSome)) ∧
    (∀ cpus : Nat, (BatchQuery.new α cpus).offset = 0) := by
  refine ⟨?_, ?_, ?_, fun _ => rfl⟩
  · intro k
    rw [setupKeys_lookup_isSome]
    simp [List.lookup]
  · refine setupKeys_lookup_offset offset queries [] ?_
    intro k v h
    simp [List.lookup] at h
  · intro m k k' c
    exact updateCount_lookup_isSome m k c k'

/-- Witness for C8: with offset `5` and a batch naming only key `"a"`,
the registry has an entry for `"a"` and its counter is `5`. -/
theorem c8_witness :
    (((setupKeys 5 [(⟨some "a", 1⟩ : Op Nat), ⟨none, 2⟩] []).lookup "a").isSome = true) ∧
    (∀ v, (setupKeys 5 [(⟨some "a", 1⟩ : Op Nat), ⟨none, 2⟩] []).lookup "a" = some v → v = 5) :=
  ⟨((c8_registry_domain_and_initial_offsets 5 [⟨some "a", 1⟩, ⟨none, 2⟩]).1 "a").mpr
      ⟨⟨some "a", 1⟩, List.mem_cons_self _ _, rfl⟩,
    fun v => (c8_registry_domain_and_initial_offsets 5 [⟨some "a", 1⟩, ⟨none, 2⟩]).2.1 "a" v⟩

/-- C9: with the consuming end of the channel dropped (`alive = false`)
a worker whose shard holds at least one credentialed operation hits the
failed `tx.send` and panics — it never continues past it or swallows
the failure (and with no credentialed operation it never sends, hence
never panics); with the consumer alive, the worker delivers every
credentialed operation's `send()` value through the channel, a fetch's
own `Err` travelling exactly like a success. -/
theorem c9_send_failure_panics_and_errs_delivered {α : Type} (limits : List (Nat × Nat))
    (shard : List (Op α)) (m : List (String × Nat))
    (hpos : ∀ p ∈ limits, p.1 ≠ 0)
    (hkeys : ∀ op ∈ shard, ∀ k, op.api_key = some k → ((m.lookup k).isSome) = true) :
    (workerRun false limits shard m = none ↔ ∃ op ∈ shard, op.api_key.isSome = true) ∧
    (∃ sleeps m', workerRun true limits shard m = some (workerOutputs shard, sleeps, m')) := by
  induction shard generalizing m with
  | nil =>
    refine ⟨?_, [], m, by simp [workerRun, workerOutputs]⟩
    simp [workerRun]
  | cons op rest ih =>
    have hkr : ∀ q ∈ rest, ∀ k, q.api_key = some k → ((m.lookup k).isSome) = true :=
      fun q hq => hkeys q (List.mem_cons_of_mem _ hq)
    cases hq : op.api_key with
    | none =>
      have ihm := ih m hkr
      constructor
      · simp only [workerRun, hq]
        rw [ihm.1]
        simp [hq]
      · obtain ⟨s, m', h⟩ := ihm.2
        refine ⟨s, m', ?_⟩
        simp only [workerRun, hq]
        rw [h]
        simp [workerOutputs, hq]
    | some k =>
      have hk := hkeys op (List.mem_cons_self _ _) k hq
      obtain ⟨c, hc⟩ : ∃ c, m.lookup k = some c := by
        cases h : m.lookup k with
        | none => rw [h] at hk; simp at hk
        | some c => exact ⟨c, rfl⟩
      have hl := limiterCheck_eq_applied c limits hpos
      constructor
      · simp only [workerRun, hq, hc, hl]
        simp only [Bool.false_eq_true, if_false]
        constructor
        · intro _
          exact ⟨op, List.mem_cons_self _ _, by simp [hq]⟩
        · intro _
          trivial
      · have hkr' : ∀ q ∈ rest, ∀ k2, q.api_key = some k2 →
            (((updateCount m k (c + 1)).lookup k2).isSome) = true := by
          intro q hq2 k2 hk2
          rw [updateCount_lookup_isSome]
          exact hkr q hq2 k2 hk2
        obtain ⟨s, m', hrun⟩ := (ih (updateCount m k (c + 1)) hkr').2
        refine ⟨appliedCooldowns c limits ++ s, m', ?_⟩
        simp only [workerRun, hq, hc, hl, if_true]
        rw [hrun]
        simp [workerOutputs, hq]

/-- Witness for C9: one credentialed operation whose fetch fails.  The
dead-consumer run panics; the live run delivers the `Err` value. -/
theorem c9_witness :
    workerRun false [(2, 5)] [(⟨some "k", FetchRes.err 7⟩ : Op FetchRes)] [("k", 0)] = none ∧
    (∃ sleeps m',
      workerRun true [(2, 5)] [(⟨some "k", FetchRes.err 7⟩ : Op FetchRes)] [("k", 0)] =
        some ([FetchRes.err 7], sleeps, m')) := by
  have h := c9_send_failure_panics_and_errs_delivered [(2, 5)]
    [(⟨some "k", FetchRes.err 7⟩ : Op FetchRes)] [("k", 0)] (by decide) (by decide)
  refine ⟨h.1.mpr ⟨⟨some "k", FetchRes.err 7⟩, List.mem_cons_self _ _, rfl⟩, ?_⟩
  obtain ⟨s, m', hrun⟩ := h.2
  exact ⟨s, m', by rw [hrun]; rfl⟩

/-! ## Supporting positive results

The keyless-skip slip is the *only* divergence behind C1/C5 at worker
count 1: restricted to batches in which every operation carries a
credential, the single-worker run does produce exactly the sequential
results in submission order. -/

/-- On an all-credentialed shard the worker's channel holds one result
per operation, in order. -/
theorem workerOutputs_all_credentialed {α : Type} (shard : List (Op α))
    (hall : ∀ q ∈ shard, q.api_key.isSome = true) :
    workerOutputs shard = specSequentialRun shard := by
  induction shard with
  | nil => rfl
  | cons q rest ih =>
    have hq := hall q (List.mem_cons_self _ _)
    simp only [workerOutputs, specSequentialRun, List.filterMap_cons, List.map_cons, hq, if_true]
    exact congrArg (q.send :: ·) (ih (fun p hp => hall p (List.mem_cons_of_mem _ hp)))

/-- With a single worker every position is in residue class `0`. -/
theorem idxFilter_one {α : Type} (qs : List (Op α)) :
    ∀ i j, idxFilter 1 j i qs = if j = 0 then qs else [] := by
  induction qs with
  | nil => intro i j; simp [idxFilter]
  | cons q rest ih =>
    intro i j
    by_cases hj : j = 0
    · subst hj
      simp [idxFilter, Nat.mod_one, ih (i + 1) 0]
    · simp [idxFilter, Nat.mod_one, Ne.symm hj, ih (i + 1) j, hj]

/-- A single worker receives the whole batch as its shard. -/
theorem jobsOf_one {α : Type} (queries : List (Op α)) : jobsOf 1 queries = [queries] := by
  have hlen : (jobsOf 1 queries).length = 1 := by
    rw [jobsOf, jobsGo_length]
    exact List.length_replicate 1 []
  have hget : (jobsOf 1 queries).getD 0 [] = idxFilter 1 0 0 queries := by
    rw [jobsOf, jobsGo_getD 1 (by omega) queries _ 0 0 (List.length_replicate 1 []) (by omega)]
    rw [getD_replicate_nil]
    rfl
  rw [idxFilter_one queries 0 0] at hget
  simp at hget
  cases h : jobsOf 1 queries with
  | nil => rw [h] at hlen; simp at hlen
  | cons x xs =>
    rw [h] at hlen hget
    simp at hlen
    subst hlen
    simp at hget
    rw [hget]

/-- Draining a single closed channel yields its buffer, in order. -/
theorem drainLoop_single_closed {α : Type} (l : List α) :
    ∀ fuel, l.length + 1 ≤ fuel → drainLoop fuel ⟨0, [⟨l, true⟩]⟩ = l := by
  induction l with
  | nil =>
    intro fuel hf
    obtain ⟨f, rfl⟩ : ∃ f, fuel = f + 1 := ⟨fuel - 1, by omega⟩
    simp [drainLoop, tryNext, tryNextLoop]
  | cons a t ih =>
    intro fuel hf
    obtain ⟨f, rfl⟩ : ∃ f, fuel = f + 1 := ⟨fuel - 1, by omega⟩
    have hstep : ∀ f : Nat, tryNextLoop (f + 1) 0 [(⟨a :: t, true⟩ : Chan α)] =
        some (.item a, 0, [⟨t, true⟩]) := by
      intro f
      rw [tryNextLoop_step f 0 [⟨a :: t, true⟩] ⟨a :: t, true⟩ rfl]
      simp
    simp only [drainLoop, tryNext, hstep, Option.map_some']
    exact congrArg (a :: ·) (ih f (by simpa using hf))

/-- With worker count 1 and every operation credentialed, the drained
run is exactly the sequential execution in submission order. -/
theorem singleWorker_all_credentialed_sequential {α : Type} (queries : List (Op α))
    (hall : ∀ q ∈ queries, q.api_key.isSome = true) :
    drainLoop (queries.length + 2) (quiescentIter 1 queries) = specSequentialRun queries := by
  cases hq : queries with
  | nil => rfl
  | cons q rest =>
    have hbufs : runChannelBufs 1 (q :: rest) = [workerOutputs (q :: rest)] := by
      rw [runChannelBufs, jobsOf_one]
      rfl
    rw [← hq] at hbufs ⊢
    have hout := workerOutputs_all_credentialed queries hall
    rw [quiescentIter, hbufs, hout]
    simp only [List.map_cons, List.map_nil]
    refine drainLoop_single_closed (specSequentialRun queries) (queries.length + 2) ?_
    simp [specSequentialRun]
